import Mathlib

/-!
Verification of the AI quiz generator (Express server + browser client).

The development shallowly embeds the JavaScript source:

* `src/server.js` (first variant): `normalizeQuestions`, `extractJsonFromText`
  and the JSON-shape handling of `generateWithGemini`;
* `src/server.js` (second variant, after the separator): the inline question
  mapping of its `/generate-quiz` handler and `extractJsonArrayFromText`;
* the frontend script (`src/unnamed/part_000` / `part_001`, two identical
  copies): `fetchAndAppendQuestions`, `onOptionClicked`, `showAnswerFeedback`,
  `nextQuestion` / `previousQuestion`, `startTimer` / `stopTimer`,
  `restartQuiz` and the keydown handler.

JavaScript strings are modelled as Lean `String` (a list of characters);
machine numbers used as indices/counts are modelled as `Int` / `Nat`
(no fractional values occur in the embedded code paths).  A `JSON.parse`
call wrapped in `try`/`catch` is modelled as a function `String → Option Json`
(`none` = the parse threw).  An executable model `jsonParse` of the strict
JSON grammar is provided for concrete evaluation.
-/

namespace Quiz

/-! ### JavaScript string primitives -/

/-- The whitespace class recognised by JavaScript `trim` / `\s`
(ASCII part; the embedded texts contain no exotic Unicode spaces). -/
def isJsWs (c : Char) : Bool :=
  c == ' ' || c == '\t' || c == '\n' || c == '\r' || c == '\x0b' || c == '\x0c'

/-- Embedding: `String.prototype.trim` on the character list: drop whitespace from
both ends. -/
def trimChars (l : List Char) : List Char :=
  ((l.dropWhile isJsWs).reverse.dropWhile isJsWs).reverse

/-- Embedding: `String.prototype.trim`. -/
def jsTrim (s : String) : String := ⟨trimChars s.data⟩

/-- Embedding: `String.prototype.indexOf(pat)`: position of the first occurrence of
`pat`, or `none` (JavaScript `-1`). -/
def idxOfSubAux (pat : List Char) : List Char → Nat → Option Nat
  | [], i => if pat = [] then some i else none
  | c :: cs, i =>
    if pat.isPrefixOf (c :: cs) then some i else idxOfSubAux pat cs (i + 1)

def idxOfSub (s : String) (pat : String) : Option Nat :=
  idxOfSubAux pat.data s.data 0

/-- Embedding: `String.prototype.lastIndexOf(pat)`: position of the last occurrence of
`pat`, or `none` (JavaScript `-1`). -/
def lastIdxOfSubAux (pat : List Char) : List Char → Nat → Option Nat → Option Nat
  | [], _, best => if pat = [] then none else best
  | c :: cs, i, best =>
    lastIdxOfSubAux pat cs (i + 1)
      (if pat.isPrefixOf (c :: cs) then some i else best)

def lastIdxOfSub (s : String) (pat : String) : Option Nat :=
  lastIdxOfSubAux pat.data s.data 0 none

/-- Embedding: `String.prototype.indexOf(ch)` for a single character. -/
def idxOfChar (s : String) (ch : Char) : Option Nat :=
  s.data.findIdx? (· == ch)

/-- Embedding: `String.prototype.lastIndexOf(ch)` for a single character. -/
def lastIdxOfChar (s : String) (ch : Char) : Option Nat :=
  (s.data.reverse.findIdx? (· == ch)).map (fun i => s.data.length - 1 - i)

/-- Embedding: `String.prototype.slice(start, stop)` for non-negative positions
(`start > stop` yields the empty string, as in JavaScript). -/
def strSlice (s : String) (start stop : Nat) : String :=
  ⟨(s.data.take stop).drop start⟩

/-! ### JSON values and a model of `JSON.parse`

`JSON.parse` is a platform builtin, not repository code; `jsonParse` below is
an executable model of the strict JSON grammar sufficient for the provider
payloads handled here (integer numbers; the usual string escapes).  Code that
wraps `JSON.parse` in `try`/`catch` is embedded parameterized over an
arbitrary `parse : String → Option Json`, so theorems quantified over `parse`
hold for the real builtin as well. -/

inductive Json where
  | null : Json
  | bool : Bool → Json
  | num : Int → Json
  | str : String → Json
  | arr : List Json → Json
  | obj : List (String × Json) → Json

/-- String body scanner for `jsonParse`: consume until the closing quote. -/
def parseStr : List Char → List Char → Option (String × List Char)
  | [], _ => none
  | '"' :: cs, acc => some (⟨acc.reverse⟩, cs)
  | '\\' :: 'n' :: cs, acc => parseStr cs ('\n' :: acc)
  | '\\' :: 't' :: cs, acc => parseStr cs ('\t' :: acc)
  | '\\' :: 'r' :: cs, acc => parseStr cs ('\r' :: acc)
  | '\\' :: '"' :: cs, acc => parseStr cs ('"' :: acc)
  | '\\' :: '\\' :: cs, acc => parseStr cs ('\\' :: acc)
  | '\\' :: '/' :: cs, acc => parseStr cs ('/' :: acc)
  | '\\' :: _ :: _, _ => none
  | '\\' :: _, _ => none
  | c :: cs, acc => parseStr cs (c :: acc)

/-- Digit run to a number, for `jsonParse`. -/
def digitsToNat (ds : List Char) : Nat :=
  ds.foldl (fun n d => n * 10 + (d.toNat - '0'.toNat)) 0

/-- Integer literal scanner for `jsonParse` (fractions and exponents are not
modelled; the embedded payloads carry integer indices only). -/
def parseNum (cs : List Char) : Option (Json × List Char) :=
  let (neg, cs1) : Bool × List Char :=
    match cs with
    | '-' :: rest => (true, rest)
    | _ => (false, cs)
  let ds := cs1.takeWhile (·.isDigit)
  let rest := cs1.drop ds.length
  if ds = [] then none
  else
    match rest with
    | '.' :: _ => none
    | 'e' :: _ => none
    | 'E' :: _ => none
    | _ =>
      let n : Int := Int.ofNat (digitsToNat ds)
      some (Json.num (if neg then -n else n), rest)

mutual

/-- Fuel-indexed recursive-descent value parser for `jsonParse`. -/
def parseValue : Nat → List Char → Option (Json × List Char)
  | 0, _ => none
  | Nat.succ fuel, cs =>
    match cs.dropWhile isJsWs with
    | '{' :: rest => parseMembersStart fuel rest
    | '[' :: rest => parseElemsStart fuel rest
    | '"' :: rest => (parseStr rest []).map (fun sr => (Json.str sr.1, sr.2))
    | 't' :: 'r' :: 'u' :: 'e' :: rest => some (Json.bool true, rest)
    | 'f' :: 'a' :: 'l' :: 's' :: 'e' :: rest => some (Json.bool false, rest)
    | 'n' :: 'u' :: 'l' :: 'l' :: rest => some (Json.null, rest)
    | other => parseNum other

def parseElemsStart : Nat → List Char → Option (Json × List Char)
  | 0, _ => none
  | Nat.succ fuel, cs =>
    match cs.dropWhile isJsWs with
    | ']' :: rest => some (Json.arr [], rest)
    | other => parseElems fuel other []

def parseElems : Nat → List Char → List Json → Option (Json × List Char)
  | 0, _, _ => none
  | Nat.succ fuel, cs, acc =>
    match parseValue fuel cs with
    | none => none
    | some (v, rest) =>
      match rest.dropWhile isJsWs with
      | ',' :: r2 => parseElems fuel r2 (v :: acc)
      | ']' :: r2 => some (Json.arr (v :: acc).reverse, r2)
      | _ => none

def parseMembersStart : Nat → List Char → Option (Json × List Char)
  | 0, _ => none
  | Nat.succ fuel, cs =>
    match cs.dropWhile isJsWs with
    | '}' :: rest => some (Json.obj [], rest)
    | other => parseMembers fuel other []

def parseMembers : Nat → List Char → List (String × Json) → Option (Json × List Char)
  | 0, _, _ => none
  | Nat.succ fuel, cs, acc =>
    match cs.dropWhile isJsWs with
    | '"' :: rest =>
      match parseStr rest [] with
      | none => none
      | some (k, r1) =>
        match r1.dropWhile isJsWs with
        | ':' :: r2 =>
          match parseValue fuel r2 with
          | none => none
          | some (v, r3) =>
            match r3.dropWhile isJsWs with
            | ',' :: r4 => parseMembers fuel r4 ((k, v) :: acc)
            | '}' :: r4 => some (Json.obj ((k, v) :: acc).reverse, r4)
            | _ => none
        | _ => none
    | _ => none

end

/-- Model of `JSON.parse`: parse one value and require only trailing
whitespace after it (strict grammar: no trailing commas, no comments). -/
def jsonParse (s : String) : Option Json :=
  match parseValue (3 * s.data.length + 8) s.data with
  | some (v, rest) => if rest.dropWhile isJsWs = [] then some v else none
  | none => none

/-! ### Question schema and the server-side normalizer (`src/server.js`) -/

/-- The normalized question shape
`{ question, options, answer_index, explanation }` produced by the server and
stored in the client's `quizData`. -/
structure Question where
  question : String
  options : List String
  answer_index : Int
  explanation : String
deriving DecidableEq

/-- A raw provider item as read by `normalizeQuestions`: each field is the
value found at the corresponding key (`none` = key absent or of the wrong
type for the `typeof` / `Array.isArray` test guarding its use).  The
uppercase alias key `Q` is the field `bigQ`. -/
structure RawItem where
  question : Option String := none
  q : Option String := none
  bigQ : Option String := none
  options : Option (List String) := none
  choices : Option (List String) := none
  answer_index : Option Int := none
  answerIndex : Option Int := none
  answer : Option String := none
  explanation : Option String := none
deriving DecidableEq

/-- Embedding: `(it.question || it.q || it.Q || '')`: the first present, truthy
(non-empty) string among the aliased keys. -/
def rawQuestionText (it : RawItem) : String :=
  match it.question with
  | some s => if s = "" then
      (match it.q with
       | some s2 => if s2 = "" then (it.bigQ.getD "") else s2
       | none => it.bigQ.getD "")
    else s
  | none =>
    match it.q with
    | some s2 => if s2 = "" then (it.bigQ.getD "") else s2
    | none => it.bigQ.getD ""

/-- Embedding: `Array.isArray(it.options) ? it.options.map(String) : (Array.isArray(it.choices) ? it.choices.map(String) : [])`. -/
def rawOptions (it : RawItem) : List String :=
  match it.options with
  | some os => os
  | none => it.choices.getD []

/-- Lines 43-50 of `server.js`: pad with `'Option'` entries below 4,
truncate above 4. -/
def padOptions (options : List String) : List String :=
  if options.length < 4 then
    ((options ++ List.replicate (4 - options.length) "Option").take 4)
  else if options.length > 4 then options.take 4
  else options

/-- Lines 52-58 of `server.js`: resolve `answer_index` / `answerIndex` /
`answer` (string matched against the options) to a number, default 0.
Note: the resolved number is NOT clamped here. -/
def rawAnswerIndex (it : RawItem) (options : List String) : Int :=
  match it.answer_index with
  | some n => n
  | none =>
    match it.answerIndex with
    | some n => n
    | none =>
      match it.answer with
      | some a => if options.contains a then (options.indexOf a : Int) else 0
      | none => 0

/-- Embedding: `it.explanation ? String(it.explanation) : ''` (empty string is falsy). -/
def rawExplanation (it : RawItem) : String :=
  match it.explanation with
  | some e => if e = "" then "" else e
  | none => ""

/-- The per-item mapping inside `normalizeQuestions` (first server variant). -/
def normalizeItem (it : RawItem) : Question :=
  let question := jsTrim (rawQuestionText it)
  let options := padOptions (rawOptions it)
  { question := question
    options := options
    answer_index := rawAnswerIndex it options
    explanation := rawExplanation it }

/-- Embedding: `normalizeQuestions(items, count)` from the first server variant:
map, filter out items with an empty (falsy) question text or fewer than 2
options, then `slice(0, count)`. -/
def normalizeQuestions (items : List RawItem) (count : Nat) : List Question :=
  ((items.map normalizeItem).filter
    (fun qn => qn.question ≠ "" ∧ qn.options.length ≥ 2)).take count

/-- The per-item mapping of the second server variant's `/generate-quiz`
handler (lines 468-483).  It computes a padded copy `o` of a short options
array but never assigns it back (`// continue with padded o` is dead code),
and arrays longer than 4 are not truncated, so `options` is passed through
unchanged. -/
def normalizeItemV2 (it : RawItem) : Question :=
  let question := jsTrim (rawQuestionText it)
  let options := rawOptions it
  { question := question
    options := options
    answer_index := rawAnswerIndex it options
    explanation := rawExplanation it }

/-- The second variant's normalization of a parsed array: map, the same
filter as the first variant, then `slice(0, count)`. -/
def normalizeQuestionsV2 (items : List RawItem) (count : Nat) : List Question :=
  ((items.map normalizeItemV2).filter
    (fun qn => qn.question ≠ "" ∧ qn.options.length ≥ 2)).take count

/-! ### `extractJsonFromText` (first server variant, lines 68-81) -/

/-- The fence location and slice of `extractJsonFromText`: `indexOf('```json')`,
`lastIndexOf('```')`, then `slice(start + 7, end).trim()`; `none` when either
index is `-1` (or the input is the falsy empty string). -/
def fenceSlice (raw : String) : Option String :=
  if raw = "" then none
  else
    match idxOfSub raw "```json", lastIdxOfSub raw "```" with
    | some s, some e => some (jsTrim (strSlice raw (s + 7) e))
    | _, _ => none

/-- Embedding: `extractJsonFromText(rawText)`: parse the fenced slice, `null` when the
slice cannot be located or `JSON.parse` throws. -/
def extractJsonFromText (parse : String → Option Json) (raw : String) : Option Json :=
  (fenceSlice raw).bind parse

/-- Field lookup in a parsed JSON object (first match, as in JavaScript
object semantics for the distinct keys produced by a provider). -/
def jsonField (fs : List (String × Json)) (k : String) : Option Json :=
  (fs.find? (fun f => f.1 == k)).map (·.2)

/-- Embedding: `Array.isArray(parsed) ? parsed : parsed?.questions` followed by the
`Array.isArray(questions)` check in `generateWithGemini` (lines 199-205). -/
def jsonQuestions : Option Json → Option (List Json)
  | some (Json.arr xs) => some xs
  | some (Json.obj fs) =>
    match jsonField fs "questions" with
    | some (Json.arr xs) => some xs
    | _ => none
  | _ => none

/-- Reading a `Json` field as a string for the `RawItem` view
(string values; integer values via their decimal print, as `String(n)`;
other shapes do not occur in the provider payloads handled here). -/
def jsonAsString : Json → Option String
  | Json.str s => some s
  | Json.num n => some (toString n)
  | _ => none

/-- Reading a `Json` field as a number for the `typeof x === 'number'` tests. -/
def jsonAsNum : Json → Option Int
  | Json.num n => some n
  | _ => none

/-- Reading a `Json` field as a string array for the `Array.isArray` tests
(entries go through `String(...)`, printing numbers decimally). -/
def jsonAsStrArray : Json → Option (List String)
  | Json.arr xs => some (xs.map (fun x => (jsonAsString x).getD ""))
  | _ => none

/-- View of a parsed JSON object as the `RawItem` consumed by
`normalizeQuestions`. -/
def jsonToRawItem : Json → RawItem
  | Json.obj fs =>
    { question := (jsonField fs "question").bind jsonAsString
      q := (jsonField fs "q").bind jsonAsString
      bigQ := (jsonField fs "Q").bind jsonAsString
      options := (jsonField fs "options").bind jsonAsStrArray
      choices := (jsonField fs "choices").bind jsonAsStrArray
      answer_index := (jsonField fs "answer_index").bind jsonAsNum
      answerIndex := (jsonField fs "answerIndex").bind jsonAsNum
      answer := (jsonField fs "answer").bind jsonAsString
      explanation := (jsonField fs "explanation").bind jsonAsString }
  | _ => {}

/-- The response-text processing of `generateWithGemini` (lines 188-207):
try `extractJsonFromText`, fall back to a direct `JSON.parse` of the whole
text, accept a bare array or an object's `questions` array, otherwise throw
the controlled `'Failed to parse Gemini JSON.'` error; on success run
`normalizeQuestions`. -/
def geminiParseQuestions (parse : String → Option Json) (text : String)
    (count : Nat) : Except String (List Question) :=
  let parsed : Option Json :=
    match extractJsonFromText parse text with
    | some p => some p
    | none => parse text
  match jsonQuestions parsed with
  | none => Except.error "Failed to parse Gemini JSON."
  | some xs => Except.ok (normalizeQuestions (xs.map jsonToRawItem) count)

/-! ### `extractJsonArrayFromText` (second server variant, lines 343-367) -/

/-- Embedding: `replace(/```json|```/g, '')`: remove markdown fences, preferring the
longer alternative at each position, scanning left to right.  Structurally
recursive on a fuel argument (one unit per consumed character) so that the
function reduces inside the kernel; `removeFences` supplies enough fuel. -/
def removeFencesF : Nat → List Char → List Char
  | 0, l => l
  | Nat.succ _, [] => []
  | Nat.succ f, c :: cs =>
    if ("```json".data).isPrefixOf (c :: cs) then removeFencesF f (cs.drop 6)
    else if ("```".data).isPrefixOf (c :: cs) then removeFencesF f (cs.drop 2)
    else c :: removeFencesF f cs

def removeFences (l : List Char) : List Char := removeFencesF l.length l

/-- Embedding: `replace(/“|”/g, '"').replace(/‘|’/g, "'")`: normalize smart quotes. -/
def smartQuote (c : Char) : Char :=
  if c = '“' ∨ c = '”' then '"'
  else if c = '‘' ∨ c = '’' then Char.ofNat 39
  else c

/-- Embedding: `replace(/,(\s*[}\]])/g, '$1')`: drop a comma that is followed by
optional whitespace and a closing brace or bracket. -/
def removeTrailingCommas : List Char → List Char
  | [] => []
  | c :: cs =>
    if c == ',' &&
        (match cs.dropWhile isJsWs with
         | b :: _ => b == '}' || b == ']'
         | [] => false) then
      removeTrailingCommas cs
    else c :: removeTrailingCommas cs

/-- Embedding: `replace(/\r\n/g, '\n')`. -/
def crlfToLf : List Char → List Char
  | '\r' :: '\n' :: cs => '\n' :: crlfToLf cs
  | c :: cs => c :: crlfToLf cs
  | [] => []

/-- Embedding: `replace(/\n+/g, '\n')`: collapse runs of newlines (fuel-indexed for
kernel reduction, as for `removeFencesF`). -/
def collapseNlF : Nat → List Char → List Char
  | 0, l => l
  | Nat.succ _, [] => []
  | Nat.succ f, '\n' :: cs => '\n' :: collapseNlF f (cs.dropWhile (· == '\n'))
  | Nat.succ f, c :: cs => c :: collapseNlF f cs

def collapseNl (l : List Char) : List Char := collapseNlF l.length l

/-- Embedding: `extractJsonArrayFromText(rawText)`: slice from the first `[` to one past
the last `]` (the `end === -1` guard never fires because of the `+ 1`),
clean fences, smart quotes, trailing commas and newline runs, trim, then
parse; `null` on any failure. -/
def extractJsonArrayFromText (parse : String → Option Json) (raw : String) :
    Option Json :=
  if raw = "" then none
  else
    let start : Int := match idxOfChar raw '[' with
      | some i => (i : Int)
      | none => -1
    let stop : Int := (match lastIdxOfChar raw ']' with
      | some i => (i : Int)
      | none => -1) + 1
    if start = -1 ∨ stop = -1 then none
    else
      let sliced := (raw.data.take stop.toNat).drop start.toNat
      let cleaned :=
        trimChars (collapseNl (crlfToLf
          (removeTrailingCommas ((removeFences sliced).map smartQuote))))
      parse ⟨cleaned⟩

/-! ### Client: `fetchAndAppendQuestions` (frontend script, lines 144-214) -/

/-- A question object as received by the client from the server response
(`data.questions`); fields as for `RawItem`, with the client's alias keys
`answerIndex` and `correct`. -/
structure CRaw where
  question : Option String := none
  options : Option (List String) := none
  answer_index : Option Int := none
  answerIndex : Option Int := none
  correct : Option Int := none
  explanation : Option String := none
deriving DecidableEq

/-- The client-side field normalization applied before pushing onto
`quizData` (lines 179-187): trim the text, `options.slice(0, 4)`,
`answer_index` from the alias chain then `Math.max(0, Math.min(3, ·))`,
`explanation` defaulted. -/
def clientNormalizeItem (it : CRaw) : Question :=
  { question := jsTrim (it.question.getD "")
    options := (it.options.getD []).take 4
    answer_index :=
      max 0 (min 3 (match it.answer_index with
        | some n => n
        | none =>
          match it.answerIndex with
          | some n => n
          | none => it.correct.getD 0))
    explanation :=
      match it.explanation with
      | some e => if e = "" then "" else e
      | none => "" }

/-- The client session state touched by `fetchAndAppendQuestions`:
the question list, the deduplication ledger `previousQuestions`, and the
navigation/score fields it must leave alone. -/
structure ClientState where
  quizData : List Question
  previousQuestions : List String
  currentQuestionIndex : Nat
  score : Nat
deriving DecidableEq

/-- State after `initQuiz` resets (before the first fetch). -/
def initClientState : ClientState :=
  { quizData := [], previousQuestions := [], currentQuestionIndex := 0, score := 0 }

/-- One iteration of the `for (const q of arr)` loop (lines 174-190):
skip empty trimmed texts, skip duplicates of an accepted session question or
a ledger entry, otherwise push the normalized question and its text onto
both. Returns whether the item was added. -/
def processItem (s : ClientState) (it : CRaw) : ClientState × Bool :=
  let qtext := jsTrim (it.question.getD "")
  if qtext = "" then (s, false)
  else if (s.quizData.any (fun ex => jsTrim ex.question == qtext)) ||
      s.previousQuestions.contains qtext then (s, false)
  else
    ({ s with
        quizData := s.quizData ++ [clientNormalizeItem it]
        previousQuestions := s.previousQuestions ++ [qtext] }, true)

/-- The loop body of the `for (const q of arr)` fold: thread the state and
the `added` counter. -/
def roundStep (acc : ClientState × Nat) (it : CRaw) : ClientState × Nat :=
  ((processItem acc.1 it).1,
    acc.2 + (if (processItem acc.1 it).2 then 1 else 0))

/-- The whole loop: fold over the received array, counting `added`. -/
def processRound (arr : List CRaw) (s : ClientState) : ClientState × Nat :=
  arr.foldl roundStep (s, 0)

/-- Embedding: `fetchAndAppendQuestions` after a 2xx response with body array `arr`
(lines 165-207): an empty array is reported as a failure; `added === 0` with
an empty session is the hard failure (`return false`); `added === 0` with a
non-empty session is only warned about and the call still succeeds. -/
def fetchAndAppend (arr : List CRaw) (s : ClientState) : ClientState × Bool :=
  if arr.isEmpty then (s, false)
  else if (processRound arr s).2 = 0 then
    if s.quizData.isEmpty then ((processRound arr s).1, false)
    else ((processRound arr s).1, true)
  else ((processRound arr s).1, true)

/-- A session's fetch history: `initQuiz` resets, then each element is the
array received by one `fetchAndAppendQuestions` round (initial fetch and
`generateMoreQuestions` rounds alike). -/
def runRounds (rounds : List (List CRaw)) : ClientState :=
  rounds.foldl (fun s arr => (fetchAndAppend arr s).1) initClientState

/-! ### Client: rendering, answer feedback and the event loop
(frontend script, lines 232-299 and 421-431) -/

/-- The state of one rendered option button: the CSS classes toggled by the
handlers and the `pointerEvents` style. -/
structure Btn where
  selected : Bool := false
  correct : Bool := false
  incorrect : Bool := false
  pointerDisabled : Bool := false
deriving DecidableEq

/-- Embedding: `renderQuestion` creates one fresh `.option-btn` per option. -/
def renderButtons (qn : Question) : List Btn :=
  qn.options.map (fun _ => ({} : Btn))

/-- Embedding: `buttons[i].classList.add('correct')` guarded by existence: no-op when
the index has no button. -/
def markCorrect (bs : List Btn) (i : Nat) : List Btn :=
  match bs.get? i with
  | some b => bs.set i { b with correct := true }
  | none => bs

def markIncorrect (bs : List Btn) (i : Nat) : List Btn :=
  match bs.get? i with
  | some b => bs.set i { b with incorrect := true }
  | none => bs

def markSelected (bs : List Btn) (i : Nat) : List Btn :=
  match bs.get? i with
  | some b => bs.set i { b with selected := true }
  | none => bs

/-- The button updates and the score decision of `showAnswerFeedback`
(lines 279-293): mark the correct option when `q.answer_index >= 0` and its
button exists; mark the selection incorrect when it differs, is `>= 0` and
its button exists; otherwise increment the score exactly when the selection
equals `q.answer_index`; finally disable pointer events on every button.
Returns the updated buttons and whether the score was incremented. -/
def feedbackButtons (qn : Question) (selectedIndex : Int) (bs : List Btn) :
    List Btn × Bool :=
  let bs1 :=
    if 0 ≤ qn.answer_index ∧ (bs.get? qn.answer_index.toNat).isSome then
      markCorrect bs qn.answer_index.toNat
    else bs
  let scored : Bool :=
    if selectedIndex ≠ qn.answer_index ∧ 0 ≤ selectedIndex ∧
        (bs1.get? selectedIndex.toNat).isSome then false
    else decide (selectedIndex = qn.answer_index)
  let bs2 :=
    if selectedIndex ≠ qn.answer_index ∧ 0 ≤ selectedIndex ∧
        (bs1.get? selectedIndex.toNat).isSome then
      markIncorrect bs1 selectedIndex.toNat
    else bs1
  ((bs2.map (fun b => { b with pointerDisabled := true })), scored)

/-- The in-quiz state driven by clicks, key presses and the two scheduled
callbacks (`setTimeout(showAnswerFeedback, 400)` from `onOptionClicked`,
`setTimeout(nextQuestion, 1200)` from `showAnswerFeedback`).  Pending
callbacks are modelled explicitly so that a trace can only fire callbacks
the handlers actually scheduled. -/
structure QuizUi where
  quizData : List Question
  currentQuestionIndex : Nat
  selectedAnswers : Nat → Option Int
  score : Nat
  buttons : List Btn
  pendingFeedback : List Int
  pendingAdvance : Nat
  finished : Bool

/-- Embedding: `onOptionClicked(index)` (lines 262-276): bail out when no buttons are
rendered, move the `selected` class, record the choice, schedule
`showAnswerFeedback(index)`. -/
def onOptionClicked (i : Nat) (s : QuizUi) : QuizUi :=
  if s.buttons.isEmpty then s
  else
    let cleared := s.buttons.map (fun b => { b with selected := false })
    { s with
        buttons := markSelected cleared i
        selectedAnswers :=
          fun j => if j = s.currentQuestionIndex then some (i : Int)
            else s.selectedAnswers j
        pendingFeedback := s.pendingFeedback ++ [(i : Int)] }

/-- Embedding: `showAnswerFeedback(selectedIndex)` body (the part after the current
question lookup): feedback marking, scoring, pointer disabling, and the
scheduling of `nextQuestion`. -/
def runFeedback (selectedIndex : Int) (s : QuizUi) : QuizUi :=
  match s.quizData.get? s.currentQuestionIndex with
  | none => s
  | some qn =>
    let r := feedbackButtons qn selectedIndex s.buttons
    { s with
        buttons := r.1
        score := s.score + (if r.2 then 1 else 0)
        pendingAdvance := s.pendingAdvance + 1 }

/-- Embedding: `nextQuestion` (lines 302-311) without the timer bookkeeping: advance and
re-render, or finish. -/
def uiNextQuestion (s : QuizUi) : QuizUi :=
  if s.currentQuestionIndex < s.quizData.length - 1 then
    let idx := s.currentQuestionIndex + 1
    { s with
        currentQuestionIndex := idx
        buttons := match s.quizData.get? idx with
          | some qn => renderButtons qn
          | none => [] }
  else { s with finished := true }

/-- The browser events relevant to answering: a mouse click on option `i`
(blocked by `pointerEvents: none` once feedback disabled the buttons), a
digit key `d` (the keydown handler calls `onOptionClicked(d - 1)` for keys
'1'-'4' with no such guard), and the firing of the scheduled callbacks. -/
inductive UiEvent where
  | click : Nat → UiEvent
  | key : Nat → UiEvent
  | fireFeedback : UiEvent
  | fireAdvance : UiEvent

def uiStep (s : QuizUi) : UiEvent → QuizUi
  | UiEvent.click i =>
    match s.buttons.get? i with
    | some b => if b.pointerDisabled then s else onOptionClicked i s
    | none => s
  | UiEvent.key d =>
    if 1 ≤ d ∧ d ≤ 4 then onOptionClicked (d - 1) s else s
  | UiEvent.fireFeedback =>
    match s.pendingFeedback with
    | [] => s
    | i :: rest => runFeedback i { s with pendingFeedback := rest }
  | UiEvent.fireAdvance =>
    if s.pendingAdvance > 0 then
      uiNextQuestion { s with pendingAdvance := s.pendingAdvance - 1 }
    else s

def uiRun (s : QuizUi) (evs : List UiEvent) : QuizUi :=
  evs.foldl uiStep s

/-- The state right after `renderQuestion` has shown question 0 of a
one-question quiz whose correct option is index 0. -/
def uiDemoState : QuizUi :=
  let qn : Question :=
    { question := "Q", options := ["a", "b", "c", "d"], answer_index := 0,
      explanation := "" }
  { quizData := [qn]
    currentQuestionIndex := 0
    selectedAnswers := fun _ => none
    score := 0
    buttons := renderButtons qn
    pendingFeedback := []
    pendingAdvance := 0
    finished := false }

/-! ### Client: timer subsystem (frontend script, lines 302-364, 404-418) -/

/-- The timer-relevant state: live `setInterval` handles (`active`, ids in
creation order), the `timerHandle` variable, and the quiz position fields the
navigation operations consult. -/
structure TimerSys where
  nextId : Nat
  active : List Nat
  handle : Option Nat
  pos : Nat
  len : Nat
  finished : Bool
deriving DecidableEq

/-- Embedding: `startTimer` (lines 343-357): `if (timerHandle) clearInterval(timerHandle)`
then `timerHandle = setInterval(...)`. -/
def startTimer (s : TimerSys) : TimerSys :=
  let act := match s.handle with
    | some h => s.active.erase h
    | none => s.active
  { s with
      active := act ++ [s.nextId]
      handle := some s.nextId
      nextId := s.nextId + 1 }

/-- Embedding: `stopTimer` (lines 359-364): clear and null the handle when set. -/
def stopTimer (s : TimerSys) : TimerSys :=
  match s.handle with
  | some h => { s with active := s.active.erase h, handle := none }
  | none => s

/-- The timer effects of the state-machine operations: `start` (a successful
`initQuiz`), `advance` (`nextQuestion`), `retreat` (`previousQuestion`) and
`restart` (`restartQuiz` with questions loaded; with none it only reopens the
setup flow, which ends in `start`). -/
inductive TOp where
  | start : TOp
  | next : TOp
  | prev : TOp
  | restart : TOp

def timerStep (s : TimerSys) : TOp → TimerSys
  | TOp.start => startTimer { s with pos := 0, finished := false }
  | TOp.next =>
    let s1 := stopTimer s
    if s1.pos + 1 < s1.len then startTimer { s1 with pos := s1.pos + 1 }
    else stopTimer { s1 with finished := true }
  | TOp.prev =>
    if s.pos > 0 then startTimer { (stopTimer s) with pos := s.pos - 1 }
    else s
  | TOp.restart =>
    if s.len = 0 then s
    else startTimer { s with pos := 0, finished := false }

def timerRun (s : TimerSys) (ops : List TOp) : TimerSys :=
  ops.foldl timerStep s

/-- Page-load state: no quiz, no timer. -/
def timerInit (len : Nat) : TimerSys :=
  { nextId := 0, active := [], handle := none, pos := 0, len := len,
    finished := false }

/-- Shape discriminator for extracted payloads (`Array.isArray`). -/
def isArrJson : Json → Bool
  | Json.arr _ => true
  | _ => false

/-- The second variant's full text-to-questions pipeline: its route handler
applies its inline normalization to the array extracted by
`extractJsonArrayFromText`. -/
def v2Pipeline (raw : String) (count : Nat) : Option (List Question) :=
  (extractJsonArrayFromText jsonParse raw).map
    (fun j => normalizeQuestionsV2 ((jsonQuestions (some j)).getD [] |>.map jsonToRawItem) count)

/-- The `timerHandle` variable always names exactly the live intervals. -/
def TimerInv (s : TimerSys) : Prop := s.active = s.handle.toList

/-- The deduplication invariant: the ledger has no repeated entry, and the
session questions carry exactly the ledger's texts (which are trim-fixed),
in order — so no two entries of the combined (questions, ledger) collection
have the same trimmed text. -/
def DedupInv (s : ClientState) : Prop :=
  s.previousQuestions.Nodup ∧
  s.quizData.map (fun qn => qn.question) = s.previousQuestions ∧
  s.quizData.map (fun qn => jsTrim qn.question) = s.previousQuestions

/-!
## Theorems

Auxiliary lemmas first, then one theorem per specification claim.
-/

theorem dropWhile_idem (p : α → Bool) (l : List α) :
    (l.dropWhile p).dropWhile p = l.dropWhile p := by
  induction l with
  | nil => rfl
  | cons a t ih =>
    by_cases h : p a = true
    · simpa [List.dropWhile_cons, h] using ih
    · simp [List.dropWhile_cons, h]

theorem dropWhile_head?_false (p : α → Bool) (l : List α) (a : α)
    (h : (l.dropWhile p).head? = some a) : p a = false := by
  induction l with
  | nil => simp at h
  | cons b u ih =>
    by_cases hb : p b = true
    · exact ih (by simpa [List.dropWhile_cons, hb] using h)
    · rw [List.dropWhile_cons, if_neg (by simp [hb])] at h
      have hba : b = a := by simpa using h
      subst hba
      simpa using hb

theorem dropWhile_eq_self_of_head? (p : α → Bool) (x : List α)
    (h : ∀ a, x.head? = some a → p a = false) : x.dropWhile p = x := by
  cases x with
  | nil => rfl
  | cons a t =>
    rw [List.dropWhile_cons, if_neg (by simp [h a rfl])]

theorem dropWhile_suffix_exists (p : α → Bool) (l : List α) :
    ∃ t, t ++ l.dropWhile p = l :=
  ⟨l.takeWhile p, List.takeWhile_append_dropWhile p l⟩

theorem trimChars_dropWhile (l : List Char) :
    (trimChars l).dropWhile isJsWs = trimChars l := by
  apply dropWhile_eq_self_of_head?
  intro a ha
  unfold trimChars at ha
  rw [List.head?_reverse] at ha
  obtain ⟨t, ht⟩ := dropWhile_suffix_exists isJsWs (l.dropWhile isJsWs).reverse
  rcases hu : (l.dropWhile isJsWs).reverse.dropWhile isJsWs with _ | ⟨b, u⟩
  · rw [hu] at ha; simp at ha
  · have hne : (l.dropWhile isJsWs).reverse.dropWhile isJsWs ≠ [] := by
      rw [hu]; simp
    have h1 : ((l.dropWhile isJsWs).reverse.dropWhile isJsWs).getLast? =
        (l.dropWhile isJsWs).reverse.getLast? := by
      conv_rhs => rw [← ht]
      exact (List.getLast?_append_of_ne_nil t hne).symm
    rw [h1, List.getLast?_reverse] at ha
    exact dropWhile_head?_false isJsWs l a ha

theorem trimChars_idem (l : List Char) : trimChars (trimChars l) = trimChars l := by
  have h1 : (trimChars l).dropWhile isJsWs = trimChars l := trimChars_dropWhile l
  show ((((trimChars l).dropWhile isJsWs).reverse.dropWhile isJsWs)).reverse = trimChars l
  rw [h1]
  have h2 : (trimChars l).reverse = (l.dropWhile isJsWs).reverse.dropWhile isJsWs := by
    unfold trimChars
    rw [List.reverse_reverse]
  rw [h2, dropWhile_idem]
  unfold trimChars
  rfl

theorem jsTrim_idem (s : String) : jsTrim (jsTrim s) = jsTrim s := by
  unfold jsTrim
  exact congrArg String.mk (trimChars_idem s.data)

/-! ### Timer exclusivity (claim C5) -/

theorem startTimer_inv (s : TimerSys) (h : TimerInv s) : TimerInv (startTimer s) := by
  unfold TimerInv startTimer at *
  cases hh : s.handle with
  | none => rw [hh] at h; simp [h]
  | some x => rw [hh] at h; simp [h, List.erase_cons_head]

theorem stopTimer_inv (s : TimerSys) (h : TimerInv s) : TimerInv (stopTimer s) := by
  unfold TimerInv stopTimer at *
  cases hh : s.handle with
  | none => simpa [hh] using h
  | some x => rw [hh] at h; simp [h, List.erase_cons_head]

theorem timerStep_inv (s : TimerSys) (op : TOp) (h : TimerInv s) :
    TimerInv (timerStep s op) := by
  have hpos : ∀ (t : TimerSys) (p : Nat) (fin : Bool),
      TimerInv t → TimerInv { t with pos := p, finished := fin } := by
    intro t p fin ht
    exact ht
  have hpos2 : ∀ (t : TimerSys) (p : Nat), TimerInv t → TimerInv { t with pos := p } := by
    intro t p ht
    exact ht
  cases op with
  | start => exact startTimer_inv _ (hpos s 0 false h)
  | next =>
    by_cases hc : (stopTimer s).pos + 1 < (stopTimer s).len
    · simp only [timerStep, hc, if_pos]
      exact startTimer_inv _ (hpos2 _ _ (stopTimer_inv s h))
    · simp only [timerStep, hc, if_neg, ite_false]
      exact stopTimer_inv _ (hpos _ _ _ (stopTimer_inv s h))
  | prev =>
    by_cases hc : s.pos > 0
    · simp only [timerStep, hc, if_pos]
      exact startTimer_inv _ (hpos2 _ _ (stopTimer_inv s h))
    · simp only [timerStep, hc, if_neg, ite_false]
      exact h
  | restart =>
    by_cases hc : s.len = 0
    · simp only [timerStep, hc, if_pos, ite_true]
      exact h
    · simp only [timerStep, hc, if_neg, ite_false]
      exact startTimer_inv _ (hpos s 0 false h)

theorem timerRun_inv (ops : List TOp) (s : TimerSys) (h : TimerInv s) :
    TimerInv (timerRun s ops) := by
  induction ops generalizing s with
  | nil => exact h
  | cons op rest ih => exact ih (timerStep s op) (timerStep_inv s op h)

/-- C5.  After any sequence of start / advance / retreat / restart
operations from the page-load state, at most one `setInterval` tick source is
live, and the `timerHandle` variable names exactly the live one: every
operation that changes the current question goes through `stopTimer` before
`startTimer`, and `startTimer` itself first clears any existing handle. -/
theorem quiz_c5_timer_exclusive (len : Nat) (ops : List TOp) :
    (timerRun (timerInit len) ops).active.length ≤ 1 ∧
    (timerRun (timerInit len) ops).active =
      (timerRun (timerInit len) ops).handle.toList := by
  have h : TimerInv (timerRun (timerInit len) ops) :=
    timerRun_inv ops (timerInit len) rfl
  refine ⟨?_, h⟩
  rw [h]
  cases (timerRun (timerInit len) ops).handle <;> simp

/-- C1.  Counterexample trace: with one rendered question whose correct
option is 0, pressing key '1' (recording the answer and scheduling feedback),
letting the feedback fire (score becomes 1, buttons pointer-disabled),
pressing key '1' again — the keydown handler has no already-answered guard
and `pointerEvents: none` does not block it — and letting the second
scheduled feedback fire, increments the score twice.  The same happens for
two mouse clicks inside the 400 ms window before the first feedback disables
the buttons.  Only a click arriving after feedback is blocked. -/
theorem quiz_c1_double_submission_rescored :
    (uiRun uiDemoState
      [UiEvent.key 1, UiEvent.fireFeedback, UiEvent.key 1, UiEvent.fireFeedback]).score = 2 ∧
    (uiRun uiDemoState
      [UiEvent.click 0, UiEvent.click 0, UiEvent.fireFeedback, UiEvent.fireFeedback]).score = 2 ∧
    (uiRun uiDemoState
      [UiEvent.click 0, UiEvent.fireFeedback, UiEvent.click 0, UiEvent.fireFeedback]).score = 1 := by
  exact ⟨by decide, by decide, by decide⟩

/-- C3.  Counterexample to "always exactly 4 options": the second server
variant's inline normalization computes a padded copy of a short options
array but never uses it, so an accepted 2-option item is returned with 2
options (and is then stored client-side with 2 options, since the client
only truncates).  The first variant's `normalizeQuestions` does pad to
exactly 4 on the same input. -/
theorem quiz_c3_options_not_padded_v2 :
    normalizeQuestionsV2
        [{ question := some "Q1", options := some ["A", "B"],
           answer_index := some 0 }] 5 =
      [{ question := "Q1", options := ["A", "B"], answer_index := 0,
         explanation := "" }] ∧
    (clientNormalizeItem
        { question := some "Q1", options := some ["A", "B"],
          answer_index := some 0 }).options.length = 2 ∧
    normalizeQuestions
        [{ question := some "Q1", options := some ["A", "B"],
           answer_index := some 0 }] 5 =
      [{ question := "Q1", options := ["A", "B", "Option", "Option"],
         answer_index := 0, explanation := "" }] := by
  exact ⟨by decide, by decide, by decide⟩

/-! ### The fetch-and-append loop: basic lemmas (claims C2, C4, C7) -/

/-- Each loop iteration either leaves the state alone (empty text or
duplicate) or appends the normalized question and its fresh trimmed text to
both the session list and the ledger. -/
theorem processItem_spec (s : ClientState) (it : CRaw) :
    processItem s it = (s, false) ∨
    (jsTrim (it.question.getD "") ≠ "" ∧
     jsTrim (it.question.getD "") ∉ s.previousQuestions ∧
     processItem s it =
       ({ s with
            quizData := s.quizData ++ [clientNormalizeItem it]
            previousQuestions :=
              s.previousQuestions ++ [jsTrim (it.question.getD "")] }, true)) := by
  unfold processItem
  by_cases h1 : jsTrim (it.question.getD "") = ""
  · left
    rw [if_pos h1]
  · by_cases h2 : ((s.quizData.any
        (fun ex => jsTrim ex.question == jsTrim (it.question.getD ""))) ||
        s.previousQuestions.contains (jsTrim (it.question.getD ""))) = true
    · left
      rw [if_neg h1, if_pos h2]
    · right
      have hmem : jsTrim (it.question.getD "") ∉ s.previousQuestions := by
        intro hmem
        apply h2
        have hc : s.previousQuestions.contains (jsTrim (it.question.getD "")) = true :=
          List.elem_iff.mpr hmem
        rw [hc]
        simp
      exact ⟨h1, hmem, by rw [if_neg h1, if_neg h2]⟩

theorem processItem_fst_of_false (s : ClientState) (it : CRaw)
    (h : (processItem s it).2 = false) : (processItem s it).1 = s := by
  rcases processItem_spec s it with hc | ⟨_, _, hc⟩
  · rw [hc]
  · rw [hc] at h
    simp at h

theorem foldl_roundStep_preserve (P : ClientState → Prop)
    (hstep : ∀ s it, P s → P (processItem s it).1) :
    ∀ (arr : List CRaw) (p : ClientState × Nat), P p.1 →
      P ((arr.foldl roundStep p).1) := by
  intro arr
  induction arr with
  | nil => intro p hp; exact hp
  | cons it rest ih =>
    intro p hp
    exact ih (roundStep p it) (hstep p.1 it hp)

theorem processRound_preserve (P : ClientState → Prop)
    (hstep : ∀ s it, P s → P (processItem s it).1)
    (arr : List CRaw) (s : ClientState) (hP : P s) :
    P (processRound arr s).1 :=
  foldl_roundStep_preserve P hstep arr (s, 0) hP

theorem foldl_roundStep_count_mono (arr : List CRaw) :
    ∀ p : ClientState × Nat, p.2 ≤ (arr.foldl roundStep p).2 := by
  induction arr with
  | nil => intro p; exact Nat.le_refl _
  | cons it rest ih =>
    intro p
    refine Nat.le_trans ?_ (ih (roundStep p it))
    unfold roundStep
    dsimp only
    split <;> omega

theorem foldl_roundStep_of_count_eq (arr : List CRaw) :
    ∀ p : ClientState × Nat, (arr.foldl roundStep p).2 = p.2 →
      (arr.foldl roundStep p).1 = p.1 := by
  induction arr with
  | nil => intro p _; rfl
  | cons it rest ih =>
    intro p hcount
    rcases hb : (processItem p.1 it).2 with _ | _
    · have hstep : roundStep p it = (p.1, p.2) := by
        unfold roundStep
        rw [processItem_fst_of_false p.1 it hb, hb]
        simp
      rw [List.foldl_cons, hstep] at hcount ⊢
      exact ih (p.1, p.2) hcount
    · exfalso
      have h1 : (roundStep p it).2 = p.2 + 1 := by
        unfold roundStep
        rw [hb]
        simp
      have h2 := foldl_roundStep_count_mono rest (roundStep p it)
      rw [List.foldl_cons] at hcount
      omega

/-- Zero accepted candidates leave the session state exactly as it was. -/
theorem processRound_state_of_zero (arr : List CRaw) (s : ClientState)
    (h : (processRound arr s).2 = 0) : (processRound arr s).1 = s :=
  foldl_roundStep_of_count_eq arr (s, 0) h

theorem fetchAndAppend_preserve (P : ClientState → Prop)
    (hstep : ∀ s it, P s → P (processItem s it).1)
    (arr : List CRaw) (s : ClientState) (hP : P s) :
    P (fetchAndAppend arr s).1 := by
  unfold fetchAndAppend
  split
  · exact hP
  · have hr := processRound_preserve P hstep arr s hP
    split
    · split
      · exact hr
      · exact hr
    · exact hr

theorem runRounds_preserve (P : ClientState → Prop)
    (hstep : ∀ s it, P s → P (processItem s it).1)
    (hinit : P initClientState) (rounds : List (List CRaw)) :
    P (runRounds rounds) := by
  have haux : ∀ (rs : List (List CRaw)) (s : ClientState), P s →
      P (rs.foldl (fun t arr => (fetchAndAppend arr t).1) s) := by
    intro rs
    induction rs with
    | nil => intro s hs; exact hs
    | cons arr rest ih =>
      intro s hs
      exact ih _ (fetchAndAppend_preserve P hstep arr s hs)
  exact haux rounds initClientState hinit

theorem clientNormalizeItem_clamped (it : CRaw) :
    0 ≤ (clientNormalizeItem it).answer_index ∧
    (clientNormalizeItem it).answer_index ≤ 3 := by
  unfold clientNormalizeItem
  refine ⟨le_max_left 0 _, max_le (by norm_num) (min_le_left 3 _)⟩

/-- C2.  Every `Question` the client stores has `answer_index` clamped into
`[0,3]`: the client-side normalization applies
`Math.max(0, Math.min(3, ·))` to the resolved index, sending `7` to `3` and
defaulting an absent index to `0`, and every question ever appended to the
session goes through it.  (The server-side `normalizeQuestions` passes the
raw value through; the clamp lives in `fetchAndAppendQuestions`.) -/
theorem quiz_c2_correctIndex_clamped :
    (∀ it : CRaw, 0 ≤ (clientNormalizeItem it).answer_index ∧
        (clientNormalizeItem it).answer_index ≤ 3) ∧
    (∀ it : CRaw, it.answer_index = some 7 →
        (clientNormalizeItem it).answer_index = 3) ∧
    (∀ it : CRaw, it.answer_index = none → it.answerIndex = none →
        it.correct = none → (clientNormalizeItem it).answer_index = 0) ∧
    (∀ rounds : List (List CRaw), ∀ qn ∈ (runRounds rounds).quizData,
        0 ≤ qn.answer_index ∧ qn.answer_index ≤ 3) := by
  refine ⟨clientNormalizeItem_clamped, ?_, ?_, ?_⟩
  · intro it h
    simp only [clientNormalizeItem, h]
    decide
  · intro it h1 h2 h3
    simp only [clientNormalizeItem, h1, h2, h3]
    decide
  · intro rounds
    refine runRounds_preserve
      (fun s => ∀ qn ∈ s.quizData, 0 ≤ qn.answer_index ∧ qn.answer_index ≤ 3)
      ?_ (by intro qn h; simp [initClientState] at h) rounds
    intro s it hP
    rcases processItem_spec s it with hc | ⟨_, _, hc⟩
    · rw [hc]; exact hP
    · rw [hc]
      intro qn hqn
      simp only [List.mem_append, List.mem_singleton] at hqn
      rcases hqn with hqn | hqn
      · exact hP qn hqn
      · rw [hqn]
        exact clientNormalizeItem_clamped it

/-- Witness for C2 at concrete inputs: `answer_index = 7` is stored as `3`,
an absent index as `0`, and a stored out-of-range question (raw index 9)
satisfies the bounds after one fetch round. -/
theorem quiz_c2_witness :
    (clientNormalizeItem { question := some "A", answer_index := some 7 }).answer_index = 3 ∧
    (clientNormalizeItem { question := some "B" }).answer_index = 0 ∧
    (0 ≤ (Question.mk "C" [] 3 "").answer_index ∧
      (Question.mk "C" [] 3 "").answer_index ≤ 3) := by
  refine ⟨quiz_c2_correctIndex_clamped.2.1 _ rfl,
    quiz_c2_correctIndex_clamped.2.2.1 _ rfl rfl rfl,
    quiz_c2_correctIndex_clamped.2.2.2
      [[{ question := some "C", answer_index := some 9 }]]
      (Question.mk "C" [] 3 "") (by decide)⟩

/-- C7.  When a non-empty fetch round accepts zero candidates (every one was
empty-texted or a duplicate), the session state — question list, ledger,
position, score — is exactly what it was before the round, and the call
reports a hard failure (`false`) precisely when the session has no questions
yet; with questions already present it reports success (the soft, warn-only
path). -/
theorem quiz_c7_zero_accept_policy (arr : List CRaw) (s : ClientState)
    (hne : arr ≠ []) (hzero : (processRound arr s).2 = 0) :
    (fetchAndAppend arr s).1 = s ∧
    (fetchAndAppend arr s).2 = !s.quizData.isEmpty := by
  have hstate := processRound_state_of_zero arr s hzero
  have hempty : arr.isEmpty = false := by
    cases arr with
    | nil => exact absurd rfl hne
    | cons a t => rfl
  unfold fetchAndAppend
  rw [hempty]
  simp only [Bool.false_eq_true, if_false, hzero, if_pos rfl]
  cases hq : s.quizData.isEmpty with
  | false => simp [hq, hstate]
  | true => simp [hq, hstate]

/-- Witness for C7: a round whose only candidate repeats the session's sole
question leaves a non-empty session untouched and reports success, while the
same duplicate-only round against the empty session (whose ledger already
holds the text from a reset-surviving ledger) reports the hard failure. -/
theorem quiz_c7_witness :
    (fetchAndAppend [{ question := some "A" }]
        (ClientState.mk [Question.mk "A" [] 0 ""] ["A"] 0 0) =
      (ClientState.mk [Question.mk "A" [] 0 ""] ["A"] 0 0, true)) ∧
    (fetchAndAppend [{ question := some "A" }]
        (ClientState.mk [] ["A"] 0 0) =
      (ClientState.mk [] ["A"] 0 0, false)) := by
  have h1 := quiz_c7_zero_accept_policy [{ question := some "A" }]
    (ClientState.mk [Question.mk "A" [] 0 ""] ["A"] 0 0)
    (by decide) (by decide)
  have h2 := quiz_c7_zero_accept_policy [{ question := some "A" }]
    (ClientState.mk [] ["A"] 0 0) (by decide) (by decide)
  constructor
  · have := h1.1
    have hb := h1.2
    rw [Prod.ext_iff]
    exact ⟨this, by simpa using hb⟩
  · have := h2.1
    have hb := h2.2
    rw [Prod.ext_iff]
    exact ⟨this, by simpa using hb⟩

/-! ### Deduplication invariant (claim C4) -/

theorem clientNormalizeItem_question (it : CRaw) :
    (clientNormalizeItem it).question = jsTrim (it.question.getD "") := rfl

theorem processItem_dedup (s : ClientState) (it : CRaw) (h : DedupInv s) :
    DedupInv (processItem s it).1 := by
  rcases processItem_spec s it with hc | ⟨_, hfresh, hc⟩
  · rw [hc]; exact h
  · rw [hc]
    obtain ⟨hnd, hmap, hmapt⟩ := h
    refine ⟨?_, ?_, ?_⟩
    · rw [List.nodup_append]
      refine ⟨hnd, List.nodup_singleton _, ?_⟩
      intro x hx hx1
      simp only [List.mem_singleton] at hx1
      rw [hx1] at hx
      exact hfresh hx
    · simp only [List.map_append, List.map_cons, List.map_nil]
      rw [hmap, clientNormalizeItem_question]
    · simp only [List.map_append, List.map_cons, List.map_nil]
      rw [hmapt, clientNormalizeItem_question, jsTrim_idem]

/-- The state component of the pair fold ignores the counter. -/
theorem foldl_roundStep_fst (arr : List CRaw) :
    ∀ p : ClientState × Nat,
      (arr.foldl roundStep p).1 =
        arr.foldl (fun t it => (processItem t it).1) p.1 := by
  induction arr with
  | nil => intro p; rfl
  | cons it rest ih =>
    intro p
    rw [List.foldl_cons, List.foldl_cons]
    exact ih (roundStep p it)

/-- Each round only appends: the previous question list and ledger are
prefixes of the new ones. -/
theorem stateFold_extends (arr : List CRaw) :
    ∀ s : ClientState,
      (∃ t, s.quizData ++ t =
        (arr.foldl (fun u it => (processItem u it).1) s).quizData) ∧
      (∃ t, s.previousQuestions ++ t =
        (arr.foldl (fun u it => (processItem u it).1) s).previousQuestions) := by
  induction arr with
  | nil => intro s; exact ⟨⟨[], by simp⟩, ⟨[], by simp⟩⟩
  | cons it rest ih =>
    intro s
    rw [List.foldl_cons]
    obtain ⟨⟨t1, ht1⟩, ⟨t2, ht2⟩⟩ := ih ((processItem s it).1)
    rcases processItem_spec s it with hc | ⟨_, _, hc⟩
    · rw [hc] at ht1 ht2 ⊢
      exact ⟨⟨t1, ht1⟩, ⟨t2, ht2⟩⟩
    · rw [hc] at ht1 ht2 ⊢
      refine ⟨⟨[clientNormalizeItem it] ++ t1, ?_⟩,
        ⟨[jsTrim (it.question.getD "")] ++ t2, ?_⟩⟩
      · rw [← List.append_assoc]
        exact ht1
      · rw [← List.append_assoc]
        exact ht2

theorem fetchAndAppend_extends (arr : List CRaw) (s : ClientState) :
    s.quizData <+: (fetchAndAppend arr s).1.quizData ∧
    s.previousQuestions <+: (fetchAndAppend arr s).1.previousQuestions := by
  have hfold := stateFold_extends arr s
  have hfst : (processRound arr s).1 =
      arr.foldl (fun t it => (processItem t it).1) s :=
    foldl_roundStep_fst arr (s, 0)
  unfold fetchAndAppend
  split
  · exact ⟨⟨[], by simp⟩, ⟨[], by simp⟩⟩
  · split
    · split
      · rw [hfst]; exact hfold
      · rw [hfst]; exact hfold
    · rw [hfst]; exact hfold

/-- C4.  The deduplication invariant holds at every point of a session: after
any sequence of fetch rounds from a fresh session, the ledger
`previousQuestions` has no duplicate entry, the session's question texts are
exactly the ledger's entries in order (each trim-fixed, so no two entries of
the combined collection share a trimmed text), and a further round only
appends — a candidate is accepted only when its trimmed text differs from
every accepted question and every ledger entry, and is then pushed onto
both. -/
theorem quiz_c4_dedup_invariant (rounds : List (List CRaw)) :
    (runRounds rounds).previousQuestions.Nodup ∧
    (runRounds rounds).quizData.map (fun qn => qn.question) =
      (runRounds rounds).previousQuestions ∧
    (runRounds rounds).quizData.map (fun qn => jsTrim qn.question) =
      (runRounds rounds).previousQuestions ∧
    ∀ arr : List CRaw,
      runRounds (rounds ++ [arr]) = (fetchAndAppend arr (runRounds rounds)).1 ∧
      (runRounds rounds).quizData <+: (runRounds (rounds ++ [arr])).quizData ∧
      (runRounds rounds).previousQuestions <+:
        (runRounds (rounds ++ [arr])).previousQuestions := by
  have hinv : DedupInv (runRounds rounds) := by
    refine runRounds_preserve DedupInv processItem_dedup ?_ rounds
    exact ⟨List.nodup_nil, rfl, rfl⟩
  have happ : ∀ arr : List CRaw,
      runRounds (rounds ++ [arr]) = (fetchAndAppend arr (runRounds rounds)).1 := by
    intro arr
    unfold runRounds
    rw [List.foldl_append]
    rfl
  refine ⟨hinv.1, hinv.2.1, hinv.2.2, ?_⟩
  intro arr
  refine ⟨happ arr, ?_, ?_⟩
  · rw [happ arr]
    exact (fetchAndAppend_extends arr (runRounds rounds)).1
  · rw [happ arr]
    exact (fetchAndAppend_extends arr (runRounds rounds)).2

/-! ### Normalizer round-trip (claim C9) -/

theorem padOptions_of_len4 (os : List String) (h : os.length = 4) :
    padOptions os = os := by
  unfold padOptions
  rw [if_neg (by omega), if_neg (by omega)]

theorem rawAnswerIndex_of_isSome (it : RawItem) (os : List String)
    (h : it.answer_index.isSome) :
    rawAnswerIndex it os = it.answer_index.getD 0 := by
  unfold rawAnswerIndex
  cases hh : it.answer_index with
  | none => rw [hh] at h; simp at h
  | some n => rfl

/-- C9.  On a well-formed payload — every item with non-empty trimmed
question text, exactly 4 options and a numeric `answer_index` — the server
normalizer keeps every item with its `answer_index` unchanged (in
particular unclamped) and its 4 options, returning `min N count` questions:
exactly `N` when `N ≤ count`, truncated to `count` otherwise, and never
more than were received. -/
theorem quiz_c9_normalizer_roundtrip (items : List RawItem) (count : Nat)
    (hwf : ∀ it ∈ items, jsTrim (rawQuestionText it) ≠ "" ∧
      (rawOptions it).length = 4 ∧ it.answer_index.isSome) :
    normalizeQuestions items count = (items.map normalizeItem).take count ∧
    (normalizeQuestions items count).length = min items.length count ∧
    (normalizeQuestions items count).length ≤ items.length ∧
    ∀ it ∈ items, (normalizeItem it).answer_index = it.answer_index.getD 0 ∧
      (normalizeItem it).options.length = 4 := by
  have hfields : ∀ it ∈ items, (normalizeItem it).question = jsTrim (rawQuestionText it) ∧
      (normalizeItem it).options = rawOptions it := by
    intro it hit
    obtain ⟨_, h4, _⟩ := hwf it hit
    exact ⟨rfl, by
      show padOptions (rawOptions it) = rawOptions it
      exact padOptions_of_len4 _ h4⟩
  have hfilter : (items.map normalizeItem).filter
      (fun qn => qn.question ≠ "" ∧ qn.options.length ≥ 2) =
      items.map normalizeItem := by
    rw [List.filter_eq_self]
    intro qn hqn
    obtain ⟨it, hit, hqe⟩ := List.mem_map.mp hqn
    obtain ⟨h1, h4, _⟩ := hwf it hit
    obtain ⟨hq, ho⟩ := hfields it hit
    rw [← hqe]
    simp only [decide_eq_true_eq]
    refine ⟨by rw [hq]; exact h1, by rw [ho, h4]; omega⟩
  have hmain : normalizeQuestions items count = (items.map normalizeItem).take count := by
    unfold normalizeQuestions
    rw [hfilter]
  refine ⟨hmain, ?_, ?_, ?_⟩
  · rw [hmain, List.length_take, List.length_map, Nat.min_comm]
  · rw [hmain, List.length_take, List.length_map]
    omega
  · intro it hit
    obtain ⟨_, h4, hsome⟩ := hwf it hit
    obtain ⟨_, ho⟩ := hfields it hit
    refine ⟨?_, by rw [ho, h4]⟩
    show rawAnswerIndex it (padOptions (rawOptions it)) = it.answer_index.getD 0
    exact rawAnswerIndex_of_isSome it _ hsome

/-- Witness for C9: two well-formed items survive normalization exactly,
with `answer_index` 3 and 0 preserved. -/
theorem quiz_c9_witness :
    normalizeQuestions
        [{ question := some "What is 2 + 2?",
           options := some ["1", "2", "3", "4"], answer_index := some 3 },
         { question := some "Capital of France?",
           options := some ["Paris", "Rome", "Oslo", "Bern"],
           answer_index := some 0 }] 5 =
      (([{ question := some "What is 2 + 2?",
           options := some ["1", "2", "3", "4"], answer_index := some 3 },
         { question := some "Capital of France?",
           options := some ["Paris", "Rome", "Oslo", "Bern"],
           answer_index := some 0 }] : List RawItem).map normalizeItem).take 5 ∧
    (normalizeQuestions
        [{ question := some "What is 2 + 2?",
           options := some ["1", "2", "3", "4"], answer_index := some 3 },
         { question := some "Capital of France?",
           options := some ["Paris", "Rome", "Oslo", "Bern"],
           answer_index := some 0 }] 5).length = min 2 5 :=
  ⟨(quiz_c9_normalizer_roundtrip _ 5 (by decide)).1,
   (quiz_c9_normalizer_roundtrip _ 5 (by decide)).2.1⟩

/-! ### Feedback totality and scoring (claim C10) -/

theorem map_get?_comm (f : α → β) (l : List α) (n : Nat) :
    (l.map f).get? n = (l.get? n).map f := by
  induction l generalizing n with
  | nil => rfl
  | cons a t ih =>
    cases n with
    | zero => rfl
    | succ m => exact ih m

theorem set_get?_self (l : List α) (n : Nat) (a : α) (h : l.get? n = some a) :
    l.set n a = l := by
  induction l generalizing n with
  | nil => simp at h
  | cons b t ih =>
    cases n with
    | zero =>
      simp only [List.get?] at h
      cases h
      rfl
    | succ m =>
      simp only [List.get?] at h
      show b :: t.set m a = b :: t
      rw [ih m h]

theorem markCorrect_length (bs : List Btn) (n : Nat) :
    (markCorrect bs n).length = bs.length := by
  unfold markCorrect
  cases bs.get? n
  · rfl
  · simp

theorem markIncorrect_length (bs : List Btn) (n : Nat) :
    (markIncorrect bs n).length = bs.length := by
  unfold markIncorrect
  cases bs.get? n
  · rfl
  · simp

theorem map_correct_markCorrect (bs : List Btn) (n : Nat) :
    (markCorrect bs n).map (fun b => b.correct) =
      if (bs.get? n).isSome then (bs.map (fun b => b.correct)).set n true
      else bs.map (fun b => b.correct) := by
  unfold markCorrect
  cases h : bs.get? n with
  | none => simp
  | some b => simp [List.map_set]

theorem map_incorrect_markCorrect (bs : List Btn) (n : Nat) :
    (markCorrect bs n).map (fun b => b.incorrect) =
      bs.map (fun b => b.incorrect) := by
  unfold markCorrect
  cases h : bs.get? n with
  | none => rfl
  | some b =>
    rw [List.map_set]
    exact set_get?_self _ n _ (by rw [map_get?_comm, h]; rfl)

theorem map_incorrect_markIncorrect (bs : List Btn) (n : Nat) :
    (markIncorrect bs n).map (fun b => b.incorrect) =
      if (bs.get? n).isSome then (bs.map (fun b => b.incorrect)).set n true
      else bs.map (fun b => b.incorrect) := by
  unfold markIncorrect
  cases h : bs.get? n with
  | none => simp
  | some b => simp [List.map_set]

theorem map_correct_markIncorrect (bs : List Btn) (n : Nat) :
    (markIncorrect bs n).map (fun b => b.correct) =
      bs.map (fun b => b.correct) := by
  unfold markIncorrect
  cases h : bs.get? n with
  | none => rfl
  | some b =>
    rw [List.map_set]
    exact set_get?_self _ n _ (by rw [map_get?_comm, h]; rfl)

theorem get?_isSome_of_length_eq (bs cs : List Btn) (n : Nat)
    (h : bs.length = cs.length) : (bs.get? n).isSome = (cs.get? n).isSome := by
  rcases Nat.lt_or_ge n bs.length with hlt | hge
  · rw [List.get?_eq_get hlt, List.get?_eq_get (h ▸ hlt)]
    rfl
  · rw [List.get?_eq_none.mpr hge, List.get?_eq_none.mpr (h ▸ hge)]


/-- Normal form: `feedbackButtons` with the incorrect-mark guard expressed over the
original button list (the intermediate list has the same length, so the
existence test agrees). -/
theorem feedbackButtons_norm (qn : Question) (i : Int) (bs : List Btn) :
    feedbackButtons qn i bs =
      ((if i ≠ qn.answer_index ∧ 0 ≤ i ∧ (bs.get? i.toNat).isSome then
          markIncorrect
            (if 0 ≤ qn.answer_index ∧ (bs.get? qn.answer_index.toNat).isSome then
              markCorrect bs qn.answer_index.toNat
            else bs) i.toNat
        else
          (if 0 ≤ qn.answer_index ∧ (bs.get? qn.answer_index.toNat).isSome then
            markCorrect bs qn.answer_index.toNat
          else bs)).map (fun b => { b with pointerDisabled := true }),
       if i ≠ qn.answer_index ∧ 0 ≤ i ∧ (bs.get? i.toNat).isSome then false
       else decide (i = qn.answer_index)) := by
  have hlen :
      (if 0 ≤ qn.answer_index ∧ (bs.get? qn.answer_index.toNat).isSome then
        markCorrect bs qn.answer_index.toNat else bs).length = bs.length := by
    split
    · exact markCorrect_length bs _
    · rfl
  have hiff : (i ≠ qn.answer_index ∧ 0 ≤ i ∧
      ((if 0 ≤ qn.answer_index ∧ (bs.get? qn.answer_index.toNat).isSome then
        markCorrect bs qn.answer_index.toNat else bs).get? i.toNat).isSome) ↔
      (i ≠ qn.answer_index ∧ 0 ≤ i ∧ (bs.get? i.toNat).isSome) := by
    rw [get?_isSome_of_length_eq _ bs i.toNat hlen]
  unfold feedbackButtons
  dsimp only
  simp only [hiff]

/-- C10.  `showAnswerFeedback` is total over malformed questions: marking the
correct option happens exactly under the code's existence guard
(`answer_index` non-negative and its button rendered) and is skipped —
not crashed on — otherwise; likewise for the incorrect mark on the
selection; every button is pointer-disabled afterwards; the button count is
preserved; `renderQuestion` renders one button per option, however few; and
the score increments exactly when the selected index equals the question's
`answer_index`, also at the `runFeedback` level for any session state. -/
theorem quiz_c10_feedback_total (qn : Question) (bs : List Btn) (i : Int) :
    (feedbackButtons qn i bs).1.length = bs.length ∧
    (feedbackButtons qn i bs).2 = decide (i = qn.answer_index) ∧
    (feedbackButtons qn i bs).1.map (fun b => b.correct) =
      (if 0 ≤ qn.answer_index ∧ (bs.get? qn.answer_index.toNat).isSome then
        (bs.map (fun b => b.correct)).set qn.answer_index.toNat true
      else bs.map (fun b => b.correct)) ∧
    (feedbackButtons qn i bs).1.map (fun b => b.incorrect) =
      (if i ≠ qn.answer_index ∧ 0 ≤ i ∧ (bs.get? i.toNat).isSome then
        (bs.map (fun b => b.incorrect)).set i.toNat true
      else bs.map (fun b => b.incorrect)) ∧
    (feedbackButtons qn i bs).1.all (fun b => b.pointerDisabled) = true ∧
    (renderButtons qn).length = qn.options.length ∧
    (∀ s : QuizUi, (runFeedback i s).score = s.score +
      (match s.quizData.get? s.currentQuestionIndex with
       | some q2 => if i = q2.answer_index then 1 else 0
       | none => 0)) := by
  have hsome : ∀ n : Nat,
      ((if 0 ≤ qn.answer_index ∧ (bs.get? qn.answer_index.toNat).isSome then
        markCorrect bs qn.answer_index.toNat else bs).get? n).isSome =
        (bs.get? n).isSome := by
    intro n
    apply get?_isSome_of_length_eq
    split
    · exact markCorrect_length bs _
    · rfl
  have hmapc :
      (if 0 ≤ qn.answer_index ∧ (bs.get? qn.answer_index.toNat).isSome then
        markCorrect bs qn.answer_index.toNat else bs).map (fun b => b.incorrect) =
      bs.map (fun b => b.incorrect) := by
    split
    · exact map_incorrect_markCorrect bs _
    · rfl
  have hpdc : ∀ l : List Btn,
      (l.map (fun b => { b with pointerDisabled := true })).map (fun b => b.correct) =
        l.map (fun b => b.correct) := by
    intro l
    rw [List.map_map]
    rfl
  have hpdi : ∀ l : List Btn,
      (l.map (fun b => { b with pointerDisabled := true })).map (fun b => b.incorrect) =
        l.map (fun b => b.incorrect) := by
    intro l
    rw [List.map_map]
    rfl
  constructor
  · -- button count preserved
    rw [feedbackButtons_norm]
    dsimp only
    rw [List.length_map]
    split
    · rw [markIncorrect_length]
      split
      · exact markCorrect_length bs _
      · rfl
    · split
      · exact markCorrect_length bs _
      · rfl
  constructor
  · -- score increment decision
    rw [feedbackButtons_norm]
    dsimp only
    split
    · rename_i hcond
      exact (decide_eq_false hcond.1).symm
    · rfl
  constructor
  · -- correct marks exactly under the guard
    rw [feedbackButtons_norm]
    dsimp only
    rw [hpdc]
    by_cases hB : i ≠ qn.answer_index ∧ 0 ≤ i ∧ (bs.get? i.toNat).isSome
    · rw [if_pos hB, map_correct_markIncorrect]
      by_cases hA : 0 ≤ qn.answer_index ∧ (bs.get? qn.answer_index.toNat).isSome
      · rw [if_pos hA, if_pos hA, map_correct_markCorrect, if_pos hA.2]
      · rw [if_neg hA, if_neg hA]
    · rw [if_neg hB]
      by_cases hA : 0 ≤ qn.answer_index ∧ (bs.get? qn.answer_index.toNat).isSome
      · rw [if_pos hA, if_pos hA, map_correct_markCorrect, if_pos hA.2]
      · rw [if_neg hA, if_neg hA]
  constructor
  · -- incorrect marks exactly under the guard
    rw [feedbackButtons_norm]
    dsimp only
    rw [hpdi]
    by_cases hB : i ≠ qn.answer_index ∧ 0 ≤ i ∧ (bs.get? i.toNat).isSome
    · rw [if_pos hB, if_pos hB, map_incorrect_markIncorrect]
      have h1 : ((if 0 ≤ qn.answer_index ∧ (bs.get? qn.answer_index.toNat).isSome then
          markCorrect bs qn.answer_index.toNat else bs).get? i.toNat).isSome := by
        rw [hsome]
        exact hB.2.2
      rw [if_pos h1, hmapc]
    · rw [if_neg hB, if_neg hB]
      exact hmapc
  constructor
  · -- every button pointer-disabled
    rw [feedbackButtons_norm]
    dsimp only
    rw [List.all_map]
    apply List.all_eq_true.mpr
    intro b _
    rfl
  constructor
  · -- one rendered button per option
    unfold renderButtons
    rw [List.length_map]
  · -- score update at the handler level
    intro s
    unfold runFeedback
    cases hq : s.quizData.get? s.currentQuestionIndex with
    | none => simp
    | some q2 =>
      dsimp only
      congr 1
      rw [feedbackButtons_norm]
      dsimp only
      by_cases hB : i ≠ q2.answer_index ∧ 0 ≤ i ∧ (s.buttons.get? i.toNat).isSome
      · rw [if_pos hB, if_neg hB.1]
        simp
      · rw [if_neg hB]
        by_cases h : i = q2.answer_index
        · rw [if_pos h]
          simp [h]
        · rw [if_neg h]
          simp [h]

/-! ### Soft failure of payload extraction (claim C6) -/

/-- C6.  For every raw provider text whose fenced payload cannot be located
(`indexOf`/`lastIndexOf` miss) or whose located slice fails to parse — for
any parse function, so in particular for the real `JSON.parse` whose throw
the `try`/`catch` turns into `null` — `extractJsonFromText` returns `none`
rather than propagating an exception, and when the whole-text fallback parse
also fails, `generateWithGemini`'s response processing yields the controlled
`'Failed to parse Gemini JSON.'` provider-failure error instead of a crash
(and never a question list). -/
theorem quiz_c6_parse_fails_softly (parse : String → Option Json) (raw : String)
    (count : Nat)
    (hfail : fenceSlice raw = none ∨ ∀ s, fenceSlice raw = some s → parse s = none) :
    extractJsonFromText parse raw = none ∧
    (parse raw = none →
      geminiParseQuestions parse raw count =
        Except.error "Failed to parse Gemini JSON.") := by
  have hext : extractJsonFromText parse raw = none := by
    unfold extractJsonFromText
    rcases hfail with h | h
    · rw [h]
      rfl
    · cases hs : fenceSlice raw with
      | none => rfl
      | some s =>
        have := h s hs
        simpa using this
  refine ⟨hext, ?_⟩
  intro hdirect
  unfold geminiParseQuestions
  rw [hext, hdirect]
  rfl

/-- Witness for C6: prose with no fence and no parseable JSON soft-fails both
the extractor and the full pipeline. -/
theorem quiz_c6_witness :
    extractJsonFromText jsonParse "The model is unavailable right now." = none ∧
    geminiParseQuestions jsonParse "The model is unavailable right now." 3 =
      Except.error "Failed to parse Gemini JSON." := by
  have h := quiz_c6_parse_fails_softly jsonParse
    "The model is unavailable right now." 3 (Or.inl (by decide))
  exact ⟨h.1, h.2 (Option.isNone_iff_eq_none.mp (by decide))⟩

/-! ### Extractor tolerances (claim C8) -/

set_option maxRecDepth 100000 in
/-- C8.  The payload extractor locates the question array for both accepted
shapes — a bare JSON array, and a JSON object whose `questions` (or `quiz`)
field holds the array — while tolerating surrounding prose, markdown code
fences, smart quotes, CRLF newlines and trailing commas before closing
brackets: concrete runs of `extractJsonArrayFromText` (second variant)
through its caller's normalization, and of `extractJsonFromText` inside
`generateWithGemini` (first variant), on texts exhibiting each tolerance. -/
theorem quiz_c8_extractor_tolerances :
    ((extractJsonArrayFromText jsonParse
        "Here is your quiz!\r\n```json\n[\n \x7b\"question\": “Which planet is red?”, \"options\": [\"Mars\", \"Venus\", \"Earth\", \"Pluto\"], \"answer_index\": 0,\x7d\n]\n```\nEnjoy!").map
      isArrJson) = some true ∧
    v2Pipeline
        "Here is your quiz!\r\n```json\n[\n \x7b\"question\": “Which planet is red?”, \"options\": [\"Mars\", \"Venus\", \"Earth\", \"Pluto\"], \"answer_index\": 0,\x7d\n]\n```\nEnjoy!"
        5 =
      some [{ question := "Which planet is red?",
              options := ["Mars", "Venus", "Earth", "Pluto"],
              answer_index := 0, explanation := "" }] ∧
    v2Pipeline
        "```json\n\x7b\n \"questions\": [ \x7b\"question\": \"Q2?\", \"options\": [\"a\",\"b\",\"c\",\"d\"], \"answer_index\": 2\x7d ]\n\x7d\n```"
        5 =
      some [{ question := "Q2?", options := ["a", "b", "c", "d"],
              answer_index := 2, explanation := "" }] ∧
    v2Pipeline
        "Some prose. \x7b\"quiz\": [ \x7b\"question\": \"Q3?\", \"options\": [\"a\",\"b\",\"c\",\"d\"], \"answer\": \"b\",\x7d ]\x7d The end."
        5 =
      some [{ question := "Q3?", options := ["a", "b", "c", "d"],
              answer_index := 1, explanation := "" }] ∧
    (geminiParseQuestions jsonParse
        "Intro. ```json \x7b\"questions\": [\x7b\"question\": \"Q4?\", \"options\": [\"a\",\"b\",\"c\",\"d\"], \"answer_index\": 1\x7d]\x7d ``` Outro."
        5).toOption =
      some [{ question := "Q4?", options := ["a", "b", "c", "d"],
              answer_index := 1, explanation := "" }] ∧
    (geminiParseQuestions jsonParse
        "```json\n[\x7b\"question\": \"Q5?\", \"options\": [\"a\",\"b\",\"c\",\"d\"], \"answer_index\": 3\x7d]\n```"
        5).toOption =
      some [{ question := "Q5?", options := ["a", "b", "c", "d"],
              answer_index := 3, explanation := "" }] := by
  exact ⟨by decide, by decide, by decide, by decide, by decide, by decide⟩

end Quiz
